import Mathlib

/-!
# Chameleon — verification of the frozen spec claims

Shallow embedding, in Lean 4, of the core of the `chameleon` HTTP
record/replay proxy (Go): the request fingerprint (`internal/hash`),
the storage envelope for response bodies (`internal/storage`), the
conditional-header normalizer and the mode-dispatched request handler
(`internal/proxy`).

Bytes are modelled as `Nat` values below 256 (`List Nat` for byte
strings); machine-width arithmetic of SHA-256 is `Nat` arithmetic
taken `% 2^32` exactly where the Go `uint32` operations wrap.
-/

/-! ## Bytes and UTF-8 -/

/-- A byte string: a list of byte values (each conceptually `< 256`). -/
abbrev Bytes := List Nat

/-- UTF-8 encoding of one unicode scalar value (Go `utf8.EncodeRune`;
Lean `Char` excludes surrogates, as Go strings produced by its parsers do). -/
def utf8Char (c : Nat) : Bytes :=
  if c < 0x80 then [c]
  else if c < 0x800 then
    [0xC0 + c / 0x40, 0x80 + c % 0x40]
  else if c < 0x10000 then
    [0xE0 + c / 0x1000, 0x80 + (c / 0x40) % 0x40, 0x80 + c % 0x40]
  else
    [0xF0 + c / 0x40000, 0x80 + (c / 0x1000) % 0x40,
     0x80 + (c / 0x40) % 0x40, 0x80 + c % 0x40]

/-- UTF-8 encoding of a string, as in Go's `[]byte(s)`. -/
def utf8 (s : String) : Bytes :=
  s.toList.flatMap (fun c => utf8Char c.toNat)

/-! ## SHA-256 (Go `crypto/sha256`)

A faithful executable SHA-256 over byte lists; `uint32` arithmetic is
`Nat` arithmetic `% 4294967296`. -/

/-- 32-bit truncation (Go `uint32` wrap-around). -/
def w32 (x : Nat) : Nat := x % 4294967296

/-- 32-bit right-rotation. -/
def rotr (k x : Nat) : Nat := w32 ((x >>> k) ||| (x <<< (32 - k)))

/-- SHA-256 round constants (FIPS 180-4, written in decimal). -/
def shaK : List Nat :=
  [1116352408, 1899447441, 3049323471, 3921009573, 961987163,
   1508970993, 2453635748, 2870763221, 3624381080, 310598401,
   607225278, 1426881987, 1925078388, 2162078206, 2614888103,
   3248222580, 3835390401, 4022224774, 264347078, 604807628,
   770255983, 1249150122, 1555081692, 1996064986, 2554220882,
   2821834349, 2952996808, 3210313671, 3336571891, 3584528711,
   113926993, 338241895, 666307205, 773529912, 1294757372,
   1396182291, 1695183700, 1986661051, 2177026350, 2456956037,
   2730485921, 2820302411, 3259730800, 3345764771, 3516065817,
   3600352804, 4094571909, 275423344, 430227734, 506948616,
   659060556, 883997877, 958139571, 1322822218, 1537002063,
   1747873779, 1955562222, 2024104815, 2227730452, 2361852424,
   2428436474, 2756734187, 3204031479, 3329325298]

/-- SHA-256 initial hash value (FIPS 180-4, written in decimal). -/
def shaH0 : List Nat :=
  [1779033703, 3144134277, 1013904242, 2773480762,
   1359893119, 2600822924, 528734635, 1541459225]

/-- Big-endian 8-byte encoding of a length value. -/
def be64 (n : Nat) : Bytes :=
  [w32 (n >>> 56) % 256, (n >>> 48) % 256, (n >>> 40) % 256, (n >>> 32) % 256,
   (n >>> 24) % 256, (n >>> 16) % 256, (n >>> 8) % 256, n % 256]

/-- SHA-256 padding: append `0x80`, zeros to 56 mod 64, then the bit length. -/
def shaPad (m : Bytes) : Bytes :=
  let L := m.length
  let k := (119 - L % 64) % 64
  m ++ [0x80] ++ List.replicate k 0 ++ be64 (8 * L)

/-- Split a byte list into big-endian 32-bit words (4 bytes each). -/
def toWords : Bytes → List Nat
  | b0 :: b1 :: b2 :: b3 :: rest =>
      (((b0 * 256 + b1) * 256 + b2) * 256 + b3) :: toWords rest
  | _ => []

/-- Split a word list into 16-word blocks (structural recursion on a fuel
bound so the kernel can evaluate it; `fuel = ws.length` always suffices). -/
def toBlocksAux : Nat → List Nat → List (List Nat)
  | 0, _ => []
  | fuel + 1, ws =>
    if ws.length < 16 then [] else ws.take 16 :: toBlocksAux fuel (ws.drop 16)

/-- Split a word list into 16-word blocks. -/
def toBlocks (ws : List Nat) : List (List Nat) :=
  toBlocksAux ws.length ws

/-- One step of the message-schedule extension: append
`σ1(w[t-2]) + w[t-7] + σ0(w[t-15]) + w[t-16]`. -/
def schedStep (w : List Nat) : List Nat :=
  let t := w.length
  let g := fun i => w.getD i 0
  let s0 := (rotr 7 (g (t - 15))) ^^^ (rotr 18 (g (t - 15))) ^^^ ((g (t - 15)) >>> 3)
  let s1 := (rotr 17 (g (t - 2))) ^^^ (rotr 19 (g (t - 2))) ^^^ ((g (t - 2)) >>> 10)
  w ++ [w32 (s1 + g (t - 7) + s0 + g (t - 16))]

/-- Extend a 16-word block to the 64-word message schedule. -/
def schedule : Nat → List Nat → List Nat
  | 0, w => w
  | n + 1, w => schedule n (schedStep w)

/-- SHA-256 working state `(a,b,c,d,e,f,g,h)`. -/
structure Sha8 where
  a : Nat
  b : Nat
  c : Nat
  d : Nat
  e : Nat
  f : Nat
  g : Nat
  h : Nat

/-- One SHA-256 compression round with schedule word `wt` and constant `kt`. -/
def shaRound (s : Sha8) (wk : Nat × Nat) : Sha8 :=
  let S1 := (rotr 6 s.e) ^^^ (rotr 11 s.e) ^^^ (rotr 25 s.e)
  let ch := (s.e &&& s.f) ^^^ ((s.e ^^^ 4294967295) &&& s.g)
  let t1 := w32 (s.h + S1 + ch + wk.2 + wk.1)
  let S0 := (rotr 2 s.a) ^^^ (rotr 13 s.a) ^^^ (rotr 22 s.a)
  let mj := (s.a &&& s.b) ^^^ (s.a &&& s.c) ^^^ (s.b &&& s.c)
  let t2 := w32 (S0 + mj)
  ⟨w32 (t1 + t2), s.a, s.b, s.c, w32 (s.d + t1), s.e, s.f, s.g⟩

/-- Compress one 16-word block into the running hash value. -/
def shaBlock (hv : List Nat) (blk : List Nat) : List Nat :=
  let w := schedule 48 blk
  let g := fun i => hv.getD i 0
  let s0 : Sha8 := ⟨g 0, g 1, g 2, g 3, g 4, g 5, g 6, g 7⟩
  let s := (w.zip shaK).foldl shaRound s0
  [w32 (g 0 + s.a), w32 (g 1 + s.b), w32 (g 2 + s.c), w32 (g 3 + s.d),
   w32 (g 4 + s.e), w32 (g 5 + s.f), w32 (g 6 + s.g), w32 (g 7 + s.h)]

/-- SHA-256 digest of a byte string, as eight 32-bit words. -/
def sha256Words (m : Bytes) : List Nat :=
  (toBlocks (toWords (shaPad m))).foldl shaBlock shaH0

/-- Lower-case hex digit for a value `< 16`. -/
def hexDigit (n : Nat) : Char :=
  if n < 10 then Char.ofNat (48 + n) else Char.ofNat (87 + n)

/-- Lower-case hex encoding of one 32-bit word (8 digits). -/
def hexWord (n : Nat) : List Char :=
  [hexDigit ((n >>> 28) % 16), hexDigit ((n >>> 24) % 16),
   hexDigit ((n >>> 20) % 16), hexDigit ((n >>> 16) % 16),
   hexDigit ((n >>> 12) % 16), hexDigit ((n >>> 8) % 16),
   hexDigit ((n >>> 4) % 16), hexDigit (n % 16)]

/-- Hex-encoded SHA-256 digest of a byte string (Go
`hex.EncodeToString(h.Sum(nil))`). -/
def sha256Hex (m : Bytes) : String :=
  String.mk ((sha256Words m).flatMap hexWord)

/-! ## `internal/hash` -/

namespace Hash

/-- `hash.Generate`: SHA-256 over `method ++ ":" ++ path ++ ":" ++ body`,
hex-encoded (Go writes `fmt.Fprintf(h, "%s:%s:", method, path)` then copies
the body reader into the hash). The body reader is modelled by its fully
buffered bytes, as the handler supplies it (`bytes.NewReader(bodyBytes)`);
with an in-memory reader the Go error paths are unreachable. -/
def Generate (method path : String) (body : Bytes) : String :=
  sha256Hex (utf8 method ++ [58] ++ utf8 path ++ [58] ++ body)

end Hash

/-! ## Base64 (Go `encoding/base64`, `StdEncoding`)

Standard alphabet with `=` padding. `DecodeString` ignores CR and LF,
requires the (remaining) length to be a multiple of four, rejects any
byte outside the alphabet, and accepts non-canonical trailing bits
(extra bits are dropped), as Go's non-strict `StdEncoding` does. -/

/-- Value of the `n`-th character (as a byte) of the standard alphabet. -/
def b64Digit (n : Nat) : Nat :=
  if n < 26 then 65 + n
  else if n < 52 then 97 + (n - 26)
  else if n < 62 then 48 + (n - 52)
  else if n = 62 then 43 else 47

/-- Reverse lookup: byte → six-bit value, `none` outside the alphabet. -/
def b64Val (c : Nat) : Option Nat :=
  if 65 ≤ c ∧ c ≤ 90 then some (c - 65)
  else if 97 ≤ c ∧ c ≤ 122 then some (c - 97 + 26)
  else if 48 ≤ c ∧ c ≤ 57 then some (c - 48 + 52)
  else if c = 43 then some 62
  else if c = 47 then some 63
  else none

/-- `base64.StdEncoding.EncodeToString`, producing the encoded bytes. -/
def b64Encode : Bytes → Bytes
  | [] => []
  | [a] => [b64Digit (a / 4), b64Digit (a % 4 * 16), 61, 61]
  | [a, b] => [b64Digit (a / 4), b64Digit (a % 4 * 16 + b / 16), b64Digit (b % 16 * 4), 61]
  | a :: b :: c :: rest =>
    b64Digit (a / 4) :: b64Digit (a % 4 * 16 + b / 16) ::
      b64Digit (b % 16 * 4 + c / 64) :: b64Digit (c % 64) :: b64Encode rest

/-- Decode one four-character group after CR/LF removal; padding (`=`) is
legal only in the last group, in its final one or two positions. -/
def b64DecodeAux : Bytes → Option Bytes
  | [] => some []
  | c1 :: c2 :: c3 :: c4 :: rest =>
    match b64Val c1, b64Val c2 with
    | some v1, some v2 =>
      if c3 = 61 ∧ c4 = 61 then
        if rest.isEmpty then some [v1 * 4 + v2 / 16] else none
      else if c4 = 61 then
        match b64Val c3 with
        | some v3 =>
          if rest.isEmpty then some [v1 * 4 + v2 / 16, v2 % 16 * 16 + v3 / 4] else none
        | none => none
      else
        match b64Val c3, b64Val c4 with
        | some v3, some v4 =>
          (b64DecodeAux rest).map
            (fun tl => (v1 * 4 + v2 / 16) :: (v2 % 16 * 16 + v3 / 4) :: (v3 % 4 * 64 + v4) :: tl)
        | _, _ => none
    | _, _ => none
  | _ => none

/-- `base64.StdEncoding.DecodeString`: `none` models the Go error return. -/
def b64Decode (s : Bytes) : Option Bytes :=
  b64DecodeAux (s.filter (fun c => c ≠ 13 ∧ c ≠ 10))

/-! ## JSON (Go `encoding/json`, the fragment the storage layer uses)

An executable byte-level model of `json.Unmarshal` into `interface{}`
followed by `json.Marshal` of the result, which is how
`ResponseBody.MarshalJSON` canonicalizes a valid-JSON body.

Modelling notes, stated once for the whole JSON section:
* String tokens are kept in raw source form (escape sequences are not
  decoded at parse time and thus not re-encoded canonically at print
  time, a value-preserving normalization in Go). No claim settled
  below evaluates a body containing an escape sequence.
* Number tokens are likewise kept in raw source form. Go parses them
  into `float64` and re-prints, which preserves the numeric value but
  can reformat the token and rejects out-of-range literals. No claim
  settled below evaluates a numeric body.
* Go decodes objects into a `map[string]interface{}` (a duplicate key
  keeps the last value) and `json.Marshal` emits the keys sorted; the
  parser below normalizes object fields to the same sorted,
  last-duplicate-wins form as it parses. -/

/-- The JSON values `json.Unmarshal` produces for `interface{}`. -/
inductive Jval where
  | jnull
  | jtrue
  | jfalse
  | jnum (tok : Bytes)
  | jstr (tok : Bytes)
  | jarr (elems : List Jval)
  | jobj (fields : List (Bytes × Jval))

/-- Byte-lexicographic ordering (Go `string <` on the raw key bytes). -/
def bytesLt : Bytes → Bytes → Bool
  | [], [] => false
  | [], _ :: _ => true
  | _ :: _, [] => false
  | a :: as, b :: bs => if a < b then true else if b < a then false else bytesLt as bs

/-- Insert a field into a sorted field list, replacing an equal key
(Go map insertion, with `json.Marshal`'s sorted output order). -/
def objInsert (k : Bytes) (v : Jval) : List (Bytes × Jval) → List (Bytes × Jval)
  | [] => [(k, v)]
  | (k', v') :: rest =>
    if k = k' then (k, v) :: rest
    else if bytesLt k k' then (k, v) :: (k', v') :: rest
    else (k', v') :: objInsert k v rest

/-- JSON whitespace (space, tab, LF, CR). -/
def jwsDrop (s : Bytes) : Bytes :=
  s.dropWhile (fun c => c = 32 ∨ c = 9 ∨ c = 10 ∨ c = 13)

/-- Is a byte an ASCII digit? -/
def isDig (c : Nat) : Bool := 48 ≤ c ∧ c ≤ 57

/-- Is a byte an ASCII hex digit? -/
def isHex (c : Nat) : Bool :=
  (48 ≤ c ∧ c ≤ 57) ∨ (97 ≤ c ∧ c ≤ 102) ∨ (65 ≤ c ∧ c ≤ 70)

/-- Scan a string token after the opening quote: returns the raw
contents (escapes validated but kept) and the input after the closing
quote. Control bytes below 0x20 are rejected, as in Go's scanner;
arbitrary other bytes are accepted. -/
def jpStrTok : Bytes → Option (Bytes × Bytes)
  | [] => none
  | 34 :: rest => some ([], rest)
  | 92 :: 117 :: h1 :: h2 :: h3 :: h4 :: rest =>
    if isHex h1 ∧ isHex h2 ∧ isHex h3 ∧ isHex h4 then
      (jpStrTok rest).map (fun (t, r) => (92 :: 117 :: h1 :: h2 :: h3 :: h4 :: t, r))
    else none
  | 92 :: e :: rest =>
    if e = 34 ∨ e = 92 ∨ e = 47 ∨ e = 98 ∨ e = 102 ∨ e = 110 ∨ e = 114 ∨ e = 116 then
      (jpStrTok rest).map (fun (t, r) => (92 :: e :: t, r))
    else none
  | c :: rest =>
    if c < 32 then none
    else (jpStrTok rest).map (fun (t, r) => (c :: t, r))

/-- Split leading decimal digits off a byte list. -/
def takeDigs (s : Bytes) : Bytes × Bytes :=
  (s.takeWhile isDig, s.dropWhile isDig)

/-- Scan a number token per the JSON grammar
`-?(0|[1-9][0-9]*)(\.[0-9]+)?([eE][+-]?[0-9]+)?`. -/
def jpNumTok (s : Bytes) : Option (Bytes × Bytes) :=
  let (sign, s1) := match s with
    | 45 :: r => (([45] : Bytes), r)
    | _ => ([], s)
  match s1 with
  | 48 :: r =>
    if (r.headD 0) |> isDig then none else jpNumFrac (sign ++ [48]) r
  | c :: _ =>
    if isDig c then
      let (ds, r) := takeDigs s1
      jpNumFrac (sign ++ ds) r
    else none
  | [] => none
where
  /-- Optional fraction part, then exponent. -/
  jpNumFrac (acc : Bytes) (s : Bytes) : Option (Bytes × Bytes) :=
    match s with
    | 46 :: r =>
      let (ds, r') := takeDigs r
      if ds.isEmpty then none else jpNumExp (acc ++ [46] ++ ds) r'
    | _ => jpNumExp acc s
  /-- Optional exponent part. -/
  jpNumExp (acc : Bytes) (s : Bytes) : Option (Bytes × Bytes) :=
    match s with
    | e :: r =>
      if e = 101 ∨ e = 69 then
        let (sgn, r1) : Bytes × Bytes := match r with
          | 43 :: r' => ([43], r')
          | 45 :: r' => ([45], r')
          | _ => ([], r)
        let (ds, r2) := takeDigs r1
        if ds.isEmpty then none else some (acc ++ [e] ++ sgn ++ ds, r2)
      else some (acc, s)
    | [] => some (acc, s)

/-- Parser mode: a value, the inside of an array, the continuation of an
array after an element, the inside of an object, or the continuation of
an object after a field (with the fields accumulated so far). -/
inductive JMode where
  | mval
  | marr
  | marrMore (acc : List Jval)
  | mobj
  | mobjMore (acc : List (Bytes × Jval))

/-- Parser result: a value, an element list, or a field list. -/
inductive JRes where
  | v (x : Jval)
  | vs (xs : List Jval)
  | fs (xs : List (Bytes × Jval))

/-- Recursive-descent JSON parser, structurally recursive on a fuel
bound so the kernel can evaluate it (each recursive call consumes one
unit of fuel; `2 * input length + 8` always suffices, see
`goJsonParse`). -/
def jpF : Nat → JMode → Bytes → Option (JRes × Bytes)
  | 0, _, _ => none
  | fuel + 1, .mval, s =>
    match jwsDrop s with
    | 110 :: 117 :: 108 :: 108 :: rest => some (.v .jnull, rest)
    | 116 :: 114 :: 117 :: 101 :: rest => some (.v .jtrue, rest)
    | 102 :: 97 :: 108 :: 115 :: 101 :: rest => some (.v .jfalse, rest)
    | 34 :: rest => (jpStrTok rest).map (fun (t, r) => (.v (.jstr t), r))
    | 91 :: rest =>
      match jpF fuel .marr rest with
      | some (.vs xs, r) => some (.v (.jarr xs), r)
      | _ => none
    | 123 :: rest =>
      match jpF fuel .mobj rest with
      | some (.fs xs, r) => some (.v (.jobj xs), r)
      | _ => none
    | s' => (jpNumTok s').map (fun (t, r) => (.v (.jnum t), r))
  | fuel + 1, .marr, s =>
    match jwsDrop s with
    | 93 :: rest => some (.vs [], rest)
    | s' =>
      match jpF fuel .mval s' with
      | some (.v x, r) => jpF fuel (.marrMore [x]) r
      | _ => none
  | fuel + 1, .marrMore acc, s =>
    match jwsDrop s with
    | 44 :: rest =>
      match jpF fuel .mval rest with
      | some (.v x, r) => jpF fuel (.marrMore (acc ++ [x])) r
      | _ => none
    | 93 :: rest => some (.vs acc, rest)
    | _ => none
  | fuel + 1, .mobj, s =>
    match jwsDrop s with
    | 125 :: rest => some (.fs [], rest)
    | 34 :: rest =>
      match jpStrTok rest with
      | some (k, r) =>
        match jwsDrop r with
        | 58 :: r' =>
          match jpF fuel .mval r' with
          | some (.v x, r'') => jpF fuel (.mobjMore (objInsert k x [])) r''
          | _ => none
        | _ => none
      | none => none
    | _ => none
  | fuel + 1, .mobjMore acc, s =>
    match jwsDrop s with
    | 125 :: rest => some (.fs acc, rest)
    | 44 :: rest =>
      match jwsDrop rest with
      | 34 :: r0 =>
        match jpStrTok r0 with
        | some (k, r) =>
          match jwsDrop r with
          | 58 :: r' =>
            match jpF fuel .mval r' with
            | some (.v x, r'') => jpF fuel (.mobjMore (objInsert k x acc)) r''
            | _ => none
          | _ => none
        | none => none
      | _ => none
    | _ => none

/-- `json.Unmarshal(b, &v)` for `v interface{}`: parse one JSON value,
allowing surrounding whitespace, rejecting trailing garbage. -/
def goJsonParse (b : Bytes) : Option Jval :=
  match jpF (2 * b.length + 8) .mval b with
  | some (.v x, rest) => if jwsDrop rest = [] then some x else none
  | _ => none

/-- Does `json.Unmarshal` into `interface{}` succeed on these bytes? -/
def goJsonValid (b : Bytes) : Bool :=
  (goJsonParse b).isSome

/-- Printer worklist item: a value, an element list, or a field list. -/
inductive JP where
  | one (v : Jval)
  | items (es : List Jval)
  | fields (fs : List (Bytes × Jval))

/-- Compact JSON printer (`json.Marshal` of the parsed value), fuel-based
structural recursion as for the parser. -/
def jprintF : Nat → JP → Bytes
  | 0, _ => []
  | fuel + 1, .one v =>
    match v with
    | .jnull => [110, 117, 108, 108]
    | .jtrue => [116, 114, 117, 101]
    | .jfalse => [102, 97, 108, 115, 101]
    | .jnum t => t
    | .jstr t => 34 :: t ++ [34]
    | .jarr es => 91 :: jprintF fuel (.items es) ++ [93]
    | .jobj fs => 123 :: jprintF fuel (.fields fs) ++ [125]
  | _ + 1, .items [] => []
  | fuel + 1, .items [e] => jprintF fuel (.one e)
  | fuel + 1, .items (e :: rest) =>
    jprintF fuel (.one e) ++ [44] ++ jprintF fuel (.items rest)
  | _ + 1, .fields [] => []
  | fuel + 1, .fields [(k, v)] => 34 :: k ++ [34, 58] ++ jprintF fuel (.one v)
  | fuel + 1, .fields ((k, v) :: rest) =>
    34 :: k ++ [34, 58] ++ jprintF fuel (.one v) ++ [44] ++ jprintF fuel (.fields rest)

/-! ## HTTP headers (Go `net/http` `Header`, `textproto.MIMEHeader`)

A header map as an association list from (canonical MIME) header name
to its ordered value list. Inbound request headers are stored by the
Go server under canonical keys, and all keys the proxy manipulates are
written canonically in the source, so key canonicalization itself is
not modelled. -/

/-- A header map. -/
abbrev Hdr := List (String × List String)

/-- Value list of a key (first matching entry; `[]` when absent). -/
def hVals : Hdr → String → List String
  | [], _ => []
  | (k', vs) :: rest, k => if k' = k then vs else hVals rest k

/-- `Header.Get`: the first value of the key, `""` when absent. -/
def hGet (h : Hdr) (k : String) : String :=
  (hVals h k).headD ""

/-- `Header.Del`: remove every entry of the key. -/
def hDel : Hdr → String → Hdr
  | [], _ => []
  | (k', vs) :: rest, k =>
    if k' = k then hDel rest k else (k', vs) :: hDel rest k

/-- `Header.Set`: replace the key's values with the single value. -/
def hSet : Hdr → String → String → Hdr
  | [], k, v => [(k, [v])]
  | (k', vs) :: rest, k, v =>
    if k' = k then (k, [v]) :: rest else (k', vs) :: hSet rest k v

/-- `Header.Add`: append one value to the key's value list. -/
def hAdd : Hdr → String → String → Hdr
  | [], k, v => [(k, [v])]
  | (k', vs) :: rest, k, v =>
    if k' = k then (k', vs ++ [v]) :: rest else (k', vs) :: hAdd rest k v

/-! ## `internal/storage` -/

namespace Storage

/-- The four bytes of the JSON literal `null`. -/
def nullLit : Bytes := [110, 117, 108, 108]

/-- `ResponseBody.MarshalJSON`: an empty body marshals to the JSON
literal `null`; a body whose bytes are valid JSON is re-marshalled
from the parsed value (`json.Marshal(jsonValue)`); any other body is
base64-encoded and marshalled as a JSON string. `json.Marshal` of a
base64 string is exactly the quoted text, since the standard alphabet
(`A`-`Z`, `a`-`z`, `0`-`9`, `+`, `/`, `=`) contains none of the bytes
Go's encoder escapes (`"`, `\`, controls, `<`, `>`, `&`). -/
def MarshalJSON (rb : Bytes) : Bytes :=
  if rb.length = 0 then nullLit
  else
    match goJsonParse rb with
    | some v => jprintF (2 * rb.length + 8) (.one v)
    | none => 34 :: b64Encode rb ++ [34]

/-- Decimal value of an ASCII hex digit. -/
def hexVal (c : Nat) : Nat :=
  if c ≤ 57 then c - 48 else if 97 ≤ c then c - 87 else c - 55

/-- Decode the raw contents of a JSON string token into the bytes Go's
decoder produces for a `string`: escape sequences are decoded, a
`\uXXXX` surrogate pair is combined, and an unpaired surrogate becomes
U+FFFD (Go `unquote`). Structural recursion on a fuel bound so the
kernel can evaluate it; the input's length always suffices since every
step consumes at least one byte. -/
def unescF : Nat → Bytes → Bytes
  | 0, _ => []
  | fuel + 1, s =>
    match s with
    | [] => []
    | 92 :: 98 :: rest => 8 :: unescF fuel rest
    | 92 :: 102 :: rest => 12 :: unescF fuel rest
    | 92 :: 110 :: rest => 10 :: unescF fuel rest
    | 92 :: 114 :: rest => 13 :: unescF fuel rest
    | 92 :: 116 :: rest => 9 :: unescF fuel rest
    | 92 :: 34 :: rest => 34 :: unescF fuel rest
    | 92 :: 92 :: rest => 92 :: unescF fuel rest
    | 92 :: 47 :: rest => 47 :: unescF fuel rest
    | 92 :: 117 :: h1 :: h2 :: h3 :: h4 :: rest =>
      let n := ((hexVal h1 * 16 + hexVal h2) * 16 + hexVal h3) * 16 + hexVal h4
      if 0xD800 ≤ n ∧ n < 0xDC00 then
        match rest with
        | 92 :: 117 :: g1 :: g2 :: g3 :: g4 :: rest2 =>
          let m := ((hexVal g1 * 16 + hexVal g2) * 16 + hexVal g3) * 16 + hexVal g4
          if 0xDC00 ≤ m ∧ m < 0xE000 then
            utf8Char (0x10000 + (n - 0xD800) * 0x400 + (m - 0xDC00)) ++ unescF fuel rest2
          else utf8Char 0xFFFD ++ unescF fuel rest
        | _ => utf8Char 0xFFFD ++ unescF fuel rest
      else if 0xDC00 ≤ n ∧ n < 0xE000 then utf8Char 0xFFFD ++ unescF fuel rest
      else utf8Char n ++ unescF fuel rest
    | c :: rest => c :: unescF fuel rest

/-- Decode a string token's raw contents (see `unescF`). -/
def unesc (s : Bytes) : Bytes :=
  unescF s.length s

/-- `json.Unmarshal(data, &str)` for `str string`: succeeds exactly when
`data` is one whitespace-surrounded JSON string (yielding its decoded
contents) or the literal `null` (a no-op on the target, which keeps its
zero value `""`). -/
def strUnmarshal (data : Bytes) : Option Bytes :=
  match jwsDrop data with
  | 110 :: 117 :: 108 :: 108 :: rest =>
    if jwsDrop rest = [] then some [] else none
  | 34 :: rest =>
    match jpStrTok rest with
    | some (t, r) => if jwsDrop r = [] then some (unesc t) else none
    | none => none
  | _ => none

/-- `ResponseBody.UnmarshalJSON`: if the data unmarshals as a string,
try base64-decoding it (keeping the decoded bytes on success, the
plain string otherwise); any non-string JSON value is stored as its
raw bytes. -/
def UnmarshalJSON (data : Bytes) : Bytes :=
  match strUnmarshal data with
  | some str =>
    match b64Decode str with
    | some decoded => decoded
    | none => str
  | none => data

/-- `storage.CachedResponse`. -/
structure CachedResponse where
  method : String
  path : String
  statusCode : Nat
  headers : Hdr
  body : Bytes
deriving DecidableEq

/-- The body field of a record after `Storage.Save` then `Storage.Load`.
`Save` runs `json.MarshalIndent` over the whole record, which calls
`ResponseBody.MarshalJSON` and re-indents the envelope; `Load` hands the
body field's raw sub-slice to `ResponseBody.UnmarshalJSON`. Indentation
only touches whitespace between tokens, so when `MarshalJSON` produces a
single token (a string literal or `null`) the sub-slice is byte-identical
to `MarshalJSON`'s output, and this composition is exactly the on-disk
round trip. -/
def saveLoadBody (rb : Bytes) : Bytes :=
  UnmarshalJSON (MarshalJSON rb)

end Storage

/-! ## `internal/proxy` -/

/-- `config.Mode`. -/
inductive Mode where
  | record
  | replay
  | passthrough

/-- An inbound HTTP request, body fully buffered (`ServeHTTP` reads it
before dispatch). The query string is carried separately from the path,
as in Go's parsed `url.URL` (`Path` excludes `RawQuery`). -/
structure Request where
  method : String
  urlPath : String
  rawQuery : String
  headers : Hdr
  body : Bytes

/-- What the store holds under a hash: no file (`Exists` false), an
undecodable file (`Load` error), or a decoded record. -/
inductive StoreEntry where
  | absent
  | corrupt (errMsg : String)
  | ok (r : Storage.CachedResponse)

/-- One operation on the client's `http.ResponseWriter`. -/
inductive WOp where
  | setHeader (k v : String)
  | addHeader (k v : String)
  | writeHeader (code : Nat)
  | write (b : Bytes)
deriving DecidableEq

/-- The handler's observable outcome for one request: the ordered
writer operations sent to the client, whether the backend proxy was
invoked, and what (if anything) was saved to the store. -/
structure SRes where
  ops : List WOp
  proxied : Bool
  saved : Option Storage.CachedResponse

/-- `http.Error`: set the plain-text content type, write the status,
write the message plus a newline. -/
def httpError (code : Nat) (msg : String) : List WOp :=
  [.setHeader "Content-Type" "text/plain; charset=utf-8",
   .setHeader "X-Content-Type-Options" "nosniff",
   .writeHeader code,
   .write (utf8 (msg ++ "\n"))]

/-- The header names `stripConditionalHeaders` iterates over, in source
order. -/
def condNames : List String :=
  ["If-None-Match", "If-Modified-Since", "If-Range", "If-Match",
   "If-Unmodified-Since"]

/-- One iteration of the stripping loop: delete the header when its
`Get` (first value) is non-empty and remember that something was
stripped. -/
def stripStep (acc : Hdr × Bool) (name : String) : Hdr × Bool :=
  if hGet acc.1 name ≠ "" then (hDel acc.1 name, true) else acc

/-- The final step of `stripConditionalHeaders`: drop `Cache-Control`
when its first value is exactly `no-cache` or exactly `max-age=0`. -/
def stripCC (r : Hdr × Bool) : Hdr × Bool :=
  if hGet r.1 "Cache-Control" = "no-cache" ∨ hGet r.1 "Cache-Control" = "max-age=0" then
    (hDel r.1 "Cache-Control", true)
  else r

/-- `stripConditionalHeaders`: drop each conditional header whose first
value is non-empty, then drop `Cache-Control` when its first value is
exactly `no-cache` or exactly `max-age=0`. -/
def stripConditionalHeaders (h : Hdr) : Hdr × Bool :=
  stripCC (condNames.foldl stripStep (h, false))

/-- The request the proxy `Director` forwards to the backend in record
mode: the inbound request with its headers stripped (the `Host`/URL
rewrite concerns the target address, not the header set). -/
def directorRecord (req : Request) : Request :=
  { req with headers := (stripConditionalHeaders req.headers).1 }

/-- `statusAllowsBody` from `handleReplay`: bodies are forbidden for
204, 304 and the 1xx range. -/
def statusAllowsBody (code : Nat) : Bool :=
  !(code == 204 || code == 304 || (decide (100 ≤ code) && decide (code < 200)))

/-- The writer operations `handleReplay` issues for one stored header
entry: `Content-Length` is skipped entirely, an empty value list is
skipped, otherwise the first value is `Set` and the rest are `Add`ed. -/
def entryOps : String × List String → List WOp
  | (k, vs) =>
    if k = "Content-Length" then []
    else
      match vs with
      | [] => []
      | v :: rest => WOp.setHeader k v :: rest.map (WOp.addHeader k)

/-- All header reconstruction operations of a replay hit. -/
def replayHeaderOps (hs : Hdr) : List WOp :=
  hs.flatMap entryOps

/-- `Handler.handleReplay`, as a function of what the store holds for
the request hash: miss → `http.Error` 404 naming the hash; undecodable
record → `http.Error` 500; hit → reconstruct headers, write the status,
then write the body only if the status class allows one and the body is
non-empty and differs from the literal text `null`. The backend proxy
is never invoked. -/
def handleReplay (entry : StoreEntry) (requestHash : String) : SRes :=
  match entry with
  | .absent =>
    { ops := httpError 404
        ("no cached response found for request (hash: " ++ requestHash ++ ")"),
      proxied := false, saved := none }
  | .corrupt errMsg =>
    { ops := httpError 500 ("failed to load cached response: " ++ errMsg),
      proxied := false, saved := none }
  | .ok cached =>
    let bodyOps :=
      if statusAllowsBody cached.statusCode ∧ 0 < cached.body.length
          ∧ cached.body ≠ Storage.nullLit ∧ cached.body ≠ [] then
        [WOp.write cached.body]
      else []
    { ops := replayHeaderOps cached.headers
        ++ [WOp.writeHeader cached.statusCode] ++ bodyOps,
      proxied := false, saved := none }

/-- `responseCapturer` state: the shared underlying header map
(`rc.Header()` delegates to the real writer), the captured status code
(constructed as `http.StatusOK`), the headers snapshotted at
`WriteHeader` time, and the accumulated body. -/
structure Capturer where
  hdr : Hdr
  statusCode : Nat
  headers : Hdr
  body : Bytes

/-- The capturer as constructed in `handleRecord`. -/
def capInit : Capturer := ⟨[], 200, [], []⟩

/-- Effect of one writer operation on the capturer. Every operation is
forwarded to the real writer in the same call; `WriteHeader` records
the code and snapshots the headers set so far, `Write` appends to the
captured body and touches neither status nor headers. -/
def capStep (c : Capturer) : WOp → Capturer
  | .setHeader k v => { c with hdr := hSet c.hdr k v }
  | .addHeader k v => { c with hdr := hAdd c.hdr k v }
  | .writeHeader code => { c with statusCode := code, headers := c.hdr }
  | .write b => { c with body := c.body ++ b }

/-- Run the capturer over the proxied backend response, given as the
sequence of writer operations `httputil.ReverseProxy` performs. -/
def runCapturer (ops : List WOp) : Capturer :=
  ops.foldl capStep capInit

/-- `Handler.handleRecord`: proxy through the capturer (the client sees
exactly the backend's writer operations), build the record from the
capture, and attempt to save it; a failed save is only logged and
changes nothing the client sees. `saveOk` models whether
`storage.Save`'s filesystem write succeeds. -/
def handleRecord (req : Request) (backendOps : List WOp) (saveOk : Bool) : SRes :=
  let c := runCapturer backendOps
  let cached : Storage.CachedResponse :=
    { method := req.method, path := req.urlPath, statusCode := c.statusCode,
      headers := c.headers, body := c.body }
  { ops := backendOps, proxied := true,
    saved := if saveOk then some cached else none }

/-- `Handler.handlePassthrough`: proxy with no capture and no storage. -/
def handlePassthrough (backendOps : List WOp) : SRes :=
  { ops := backendOps, proxied := true, saved := none }

/-- The hash `ServeHTTP` computes for a request:
`hash.Generate(r.Method, r.URL.Path, bytes.NewReader(bodyBytes))` —
the parsed URL's path, which never contains the query string. -/
def requestHashOf (r : Request) : String :=
  Hash.Generate r.method r.urlPath r.body

/-- `Handler.ServeHTTP`: buffer the body, compute the request hash,
dispatch on the configured mode. The backend's behaviour (in record and
passthrough modes) is the operation sequence `backendOps`; the store is
a map from hash to what `Exists`/`Load` find there. -/
def serveHTTP (mode : Mode) (store : String → StoreEntry) (req : Request)
    (backendOps : List WOp) (saveOk : Bool) : SRes :=
  let requestHash := requestHashOf req
  match mode with
  | .replay => handleReplay (store requestHash) requestHash
  | .record => handleRecord req backendOps saveOk
  | .passthrough => handlePassthrough backendOps

/-- The bytes a writer-operation sequence sends as the response body. -/
def writtenBody (ops : List WOp) : Bytes :=
  ops.flatMap (fun op => match op with | .write b => b | _ => [])

/-- Effect of one writer operation on a response header map. -/
def applyWOp (h : Hdr) : WOp → Hdr
  | .setHeader k v => hSet h k v
  | .addHeader k v => hAdd h k v
  | .writeHeader _ => h
  | .write _ => h

/-- The response header map an operation sequence builds. -/
def respHeaders (ops : List WOp) : Hdr :=
  ops.foldl applyWOp []

/-! ## Helper lemmas on the header and writer models -/

theorem hVals_hDel_self (h : Hdr) (k : String) : hVals (hDel h k) k = [] := by
  induction h with
  | nil => rfl
  | cons p rest ih =>
    obtain ⟨k', vs⟩ := p
    by_cases hk : k' = k
    · simp [hDel, hk, ih]
    · simp [hDel, hVals, hk, ih]

theorem hVals_hDel_ne (h : Hdr) (kd k : String) (hne : kd ≠ k) :
    hVals (hDel h kd) k = hVals h k := by
  induction h with
  | nil => rfl
  | cons p rest ih =>
    obtain ⟨k', vs⟩ := p
    by_cases hk : k' = kd
    · subst hk
      simp [hDel, hVals, hne, ih]
    · simp [hDel, hVals, hk, ih]

theorem hGet_hDel_self (h : Hdr) (k : String) : hGet (hDel h k) k = "" := by
  simp [hGet, hVals_hDel_self]

theorem hVals_hSet_self (h : Hdr) (k v : String) : hVals (hSet h k v) k = [v] := by
  induction h with
  | nil => simp [hSet, hVals]
  | cons p rest ih =>
    obtain ⟨k', vs⟩ := p
    by_cases hk : k' = k
    · simp [hSet, hVals, hk]
    · simp [hSet, hVals, hk, ih]

theorem hVals_hSet_ne (h : Hdr) (ks k v : String) (hne : ks ≠ k) :
    hVals (hSet h ks v) k = hVals h k := by
  induction h with
  | nil => simp [hSet, hVals, hne]
  | cons p rest ih =>
    obtain ⟨k', vs⟩ := p
    by_cases hk : k' = ks
    · subst hk
      simp [hSet, hVals, hne, ih]
    · have hks : ¬k = ks := fun hh => hne hh.symm
      by_cases hk2 : k' = k
      · subst hk2
        simp [hSet, hVals, hk, hks]
      · simp [hSet, hVals, hk, hk2, ih]

theorem hVals_hAdd_self (h : Hdr) (k v : String) :
    hVals (hAdd h k v) k = hVals h k ++ [v] := by
  induction h with
  | nil => simp [hAdd, hVals]
  | cons p rest ih =>
    obtain ⟨k', vs⟩ := p
    by_cases hk : k' = k
    · simp [hAdd, hVals, hk]
    · simp [hAdd, hVals, hk, ih]

theorem hVals_hAdd_ne (h : Hdr) (ka k v : String) (hne : ka ≠ k) :
    hVals (hAdd h ka v) k = hVals h k := by
  induction h with
  | nil => simp [hAdd, hVals, hne]
  | cons p rest ih =>
    obtain ⟨k', vs⟩ := p
    by_cases hk : k' = ka
    · subst hk
      simp [hAdd, hVals, hne, ih]
    · have hka : ¬k = ka := fun hh => hne hh.symm
      by_cases hk2 : k' = k
      · subst hk2
        simp [hAdd, hVals, hk, hka]
      · simp [hAdd, hVals, hk, hk2, ih]

theorem writtenBody_append (a b : List WOp) :
    writtenBody (a ++ b) = writtenBody a ++ writtenBody b := by
  simp [writtenBody]

theorem writtenBody_mapAdd (k : String) (l : List String) :
    writtenBody (l.map (WOp.addHeader k)) = [] := by
  induction l with
  | nil => rfl
  | cons v rest ih => simp [writtenBody] at ih ⊢

theorem writtenBody_entryOps (e : String × List String) :
    writtenBody (entryOps e) = [] := by
  obtain ⟨k, vs⟩ := e
  by_cases hk : k = "Content-Length"
  · simp [entryOps, hk, writtenBody]
  · cases vs with
    | nil => simp [entryOps, hk, writtenBody]
    | cons v rest =>
      have hm := writtenBody_mapAdd k rest
      simp [writtenBody] at hm
      simp [entryOps, hk, writtenBody, hm]

theorem writtenBody_replayHeaderOps (hs : Hdr) :
    writtenBody (replayHeaderOps hs) = [] := by
  induction hs with
  | nil => rfl
  | cons e rest ih =>
    have he := writtenBody_entryOps e
    have hsplit : replayHeaderOps (e :: rest) = entryOps e ++ replayHeaderOps rest := by
      simp [replayHeaderOps]
    rw [hsplit, writtenBody_append, he, ih]
    rfl

theorem stripStep_get_self (acc : Hdr × Bool) (n : String) :
    hGet (stripStep acc n).1 n = "" := by
  unfold stripStep
  by_cases hc : hGet acc.1 n ≠ ""
  · simp [hc, hGet_hDel_self]
  · push_neg at hc
    simp [hc]

theorem stripStep_preserve (acc : Hdr × Bool) (m n : String)
    (hn : hGet acc.1 n = "") : hGet (stripStep acc m).1 n = "" := by
  unfold stripStep
  by_cases hc : hGet acc.1 m ≠ ""
  · rw [if_pos hc]
    by_cases hm : m = n
    · subst hm
      exact hGet_hDel_self _ _
    · show hGet (hDel acc.1 m) n = ""
      unfold hGet
      rw [hVals_hDel_ne _ _ _ hm]
      exact hn
  · rw [if_neg hc]
    exact hn

theorem foldl_stripStep_preserve (names : List String) (acc : Hdr × Bool)
    (n : String) (hn : hGet acc.1 n = "") :
    hGet (names.foldl stripStep acc).1 n = "" := by
  induction names generalizing acc with
  | nil => exact hn
  | cons m rest ih => exact ih _ (stripStep_preserve acc m n hn)

theorem foldl_stripStep_mem (names : List String) (acc : Hdr × Bool)
    (n : String) (hmem : n ∈ names) :
    hGet (names.foldl stripStep acc).1 n = "" := by
  induction names generalizing acc with
  | nil => cases hmem
  | cons m rest ih =>
    rcases List.mem_cons.mp hmem with hm | hm
    · subst hm
      exact foldl_stripStep_preserve rest _ n (stripStep_get_self acc n)
    · exact ih _ hm

theorem stripCC_get_preserved (r : Hdr × Bool) (n : String)
    (hn : n ≠ "Cache-Control") : hGet (stripCC r).1 n = hGet r.1 n := by
  unfold stripCC
  split
  · show (hVals (hDel r.1 "Cache-Control") n).headD "" = _
    rw [hVals_hDel_ne _ _ _ (fun hh => hn hh.symm)]
    rfl
  · rfl

theorem stripCC_cc (r : Hdr × Bool) :
    hGet (stripCC r).1 "Cache-Control" ≠ "no-cache"
    ∧ hGet (stripCC r).1 "Cache-Control" ≠ "max-age=0" := by
  unfold stripCC
  split
  · constructor
    · rw [hGet_hDel_self]
      decide
    · rw [hGet_hDel_self]
      decide
  · next hcond =>
    push_neg at hcond
    exact hcond

theorem capFold_status (ops : List WOp) (c : Capturer)
    (hno : ∀ code, WOp.writeHeader code ∉ ops) :
    (ops.foldl capStep c).statusCode = c.statusCode := by
  induction ops generalizing c with
  | nil => rfl
  | cons op rest ih =>
    have hrest : ∀ code, WOp.writeHeader code ∉ rest := by
      intro code hmem
      exact hno code (List.mem_cons_of_mem _ hmem)
    cases op with
    | setHeader k v => exact ih _ hrest
    | addHeader k v => exact ih _ hrest
    | writeHeader code => exact absurd (List.mem_cons_self _ _) (hno code)
    | write b => exact ih _ hrest

/-- Apply one stored header entry to a response header map, as
`handleReplay` does (`Set` the first value, `Add` the rest, skipping
`Content-Length` and empty value lists). -/
def applyEntry (m : Hdr) (e : String × List String) : Hdr :=
  (entryOps e).foldl applyWOp m

theorem foldl_applyWOp_mapAdd (k : String) (l : List String) (m : Hdr) :
    (l.map (WOp.addHeader k)).foldl applyWOp m
      = l.foldl (fun m' v => hAdd m' k v) m := by
  induction l generalizing m with
  | nil => rfl
  | cons v rest ih => simp [applyWOp, ih]

theorem addFold_self (k : String) (l : List String) (m : Hdr) :
    hVals (l.foldl (fun m' v => hAdd m' k v) m) k = hVals m k ++ l := by
  induction l generalizing m with
  | nil => simp
  | cons v rest ih => simp [ih, hVals_hAdd_self]

theorem addFold_ne (k k' : String) (l : List String) (m : Hdr) (hne : k ≠ k') :
    hVals (l.foldl (fun m' v => hAdd m' k v) m) k' = hVals m k' := by
  induction l generalizing m with
  | nil => rfl
  | cons v rest ih => rw [List.foldl_cons, ih, hVals_hAdd_ne _ _ _ _ hne]

theorem applyEntry_CL (m : Hdr) (e : String × List String) :
    hVals (applyEntry m e) "Content-Length" = hVals m "Content-Length" := by
  obtain ⟨k, vs⟩ := e
  by_cases hk : k = "Content-Length"
  · simp [applyEntry, entryOps, hk]
  · cases vs with
    | nil => simp [applyEntry, entryOps, hk]
    | cons v rest =>
      simp only [applyEntry, entryOps]
      rw [if_neg hk]
      simp only [List.foldl_cons, applyWOp, foldl_applyWOp_mapAdd]
      rw [addFold_ne _ _ _ _ hk, hVals_hSet_ne _ _ _ _ hk]

theorem applyEntry_ne (m : Hdr) (e : String × List String) (k : String)
    (hne : e.1 ≠ k) : hVals (applyEntry m e) k = hVals m k := by
  obtain ⟨k0, vs⟩ := e
  simp only at hne
  by_cases hk : k0 = "Content-Length"
  · simp [applyEntry, entryOps, hk]
  · cases vs with
    | nil => simp [applyEntry, entryOps, hk]
    | cons v rest =>
      simp only [applyEntry, entryOps]
      rw [if_neg hk]
      simp only [List.foldl_cons, applyWOp, foldl_applyWOp_mapAdd]
      rw [addFold_ne _ _ _ _ hne, hVals_hSet_ne _ _ _ _ hne]

theorem applyEntry_self (m : Hdr) (k : String) (v : String) (rest : List String)
    (hk : k ≠ "Content-Length") :
    hVals (applyEntry m (k, v :: rest)) k = v :: rest := by
  simp only [applyEntry, entryOps]
  rw [if_neg hk]
  simp only [List.foldl_cons, applyWOp, foldl_applyWOp_mapAdd]
  rw [addFold_self, hVals_hSet_self]
  rfl

theorem foldl_applyEntry_CL (hs : Hdr) (m : Hdr) :
    hVals (hs.foldl applyEntry m) "Content-Length"
      = hVals m "Content-Length" := by
  induction hs generalizing m with
  | nil => rfl
  | cons e rest ih => rw [List.foldl_cons, ih, applyEntry_CL]

theorem foldl_applyEntry_notmem (hs : Hdr) (m : Hdr) (k : String)
    (hnm : k ∉ hs.map Prod.fst) :
    hVals (hs.foldl applyEntry m) k = hVals m k := by
  induction hs generalizing m with
  | nil => rfl
  | cons e rest ih =>
    simp only [List.map_cons, List.mem_cons, not_or] at hnm
    rw [List.foldl_cons, ih _ hnm.2, applyEntry_ne _ _ _ (fun h => hnm.1 h.symm)]

theorem foldl_applyEntry_mem (hs : Hdr) (m : Hdr) (k : String)
    (vs : List String) (hnd : (hs.map Prod.fst).Nodup) ( hmem : (k, vs) ∈ hs)
    (hk : k ≠ "Content-Length") (hvs : vs ≠ []) :
    hVals (hs.foldl applyEntry m) k = vs := by
  induction hs generalizing m with
  | nil => cases hmem
  | cons e rest ih =>
    simp only [List.map_cons, List.nodup_cons] at hnd
    rcases List.mem_cons.mp hmem with he | he
    · subst he
      cases vs with
      | nil => exact absurd rfl hvs
      | cons v tl =>
        rw [List.foldl_cons,
          foldl_applyEntry_notmem rest _ k hnd.1, applyEntry_self _ _ _ _ hk]
    · exact ih _ hnd.2 he

/-- The body bytes a replay hit writes: the stored body exactly when the
status class allows one and the body is non-empty and not the literal
text `null`, nothing otherwise. -/
theorem writtenBody_handleReplay_ok (cached : Storage.CachedResponse) (hash : String) :
    writtenBody (handleReplay (.ok cached) hash).ops
      = if statusAllowsBody cached.statusCode ∧ 0 < cached.body.length
          ∧ cached.body ≠ Storage.nullLit ∧ cached.body ≠ [] then cached.body
        else [] := by
  simp only [handleReplay]
  split
  · rw [writtenBody_append, writtenBody_append, writtenBody_replayHeaderOps]
    simp [writtenBody]
  · rw [writtenBody_append, writtenBody_append, writtenBody_replayHeaderOps]
    simp [writtenBody]

/-- The response header map a replay hit builds, as the fold of the
stored entries (status and body writes do not touch headers). -/
theorem respHeaders_replay (cached : Storage.CachedResponse) (hash : String) :
    respHeaders (handleReplay (.ok cached) hash).ops
      = cached.headers.foldl applyEntry [] := by
  have hflat : ∀ (hs : Hdr) (m : Hdr),
      (replayHeaderOps hs).foldl applyWOp m = hs.foldl applyEntry m := by
    intro hs
    induction hs with
    | nil => intro m; rfl
    | cons e rest ih =>
      intro m
      have hsplit : replayHeaderOps (e :: rest)
          = entryOps e ++ replayHeaderOps rest := by
        simp [replayHeaderOps]
      rw [hsplit, List.foldl_append, ih]
      rfl
  simp only [handleReplay, respHeaders]
  split
  · rw [List.foldl_append, List.foldl_append, hflat]
    rfl
  · rw [List.foldl_append, List.foldl_append, hflat]
    rfl

/-! ## The claims -/

/-- C1: the claim asserts that saving any `ResponseRecord` body and
loading it back is exact — semantically identical JSON for JSON bodies,
byte-identical otherwise, for all byte sequences. The code violates
this: a body that is itself a JSON string is stored as that string and,
on load, mistaken for a base64 envelope. At the failing input, the body
bytes are the ten characters of the JSON string literal holding the
text aGVsbG8= (which is valid JSON), and the save/load round trip
returns the five bytes of the word hello — not byte-identical, and not
even valid JSON, hence not semantically identical either. -/
theorem C1_string_body_corrupted_by_roundtrip :
    goJsonValid (utf8 "\"aGVsbG8=\"") = true
    ∧ Storage.saveLoadBody (utf8 "\"aGVsbG8=\"") = utf8 "hello"
    ∧ Storage.saveLoadBody (utf8 "\"aGVsbG8=\"") ≠ utf8 "\"aGVsbG8=\""
    ∧ goJsonValid (Storage.saveLoadBody (utf8 "\"aGVsbG8=\"")) = false := by
  refine ⟨by decide, by decide, by decide, by decide⟩

set_option maxRecDepth 16000 in
/-- C2: `hash.Generate` is a pure deterministic function of
(method, path, body) — equal triples give equal fingerprints — and the
three concrete triples (GET, /a, empty), (POST, /a, empty),
(GET, /b, empty) give three pairwise distinct fingerprints. -/
theorem C2_fingerprint_pure_and_distinct :
    (∀ m p b m2 p2 b2, m = m2 → p = p2 → b = b2 →
      Hash.Generate m p b = Hash.Generate m2 p2 b2)
    ∧ Hash.Generate "GET" "/a" [] ≠ Hash.Generate "POST" "/a" []
    ∧ Hash.Generate "GET" "/a" [] ≠ Hash.Generate "GET" "/b" []
    ∧ Hash.Generate "POST" "/a" [] ≠ Hash.Generate "GET" "/b" [] := by
  refine ⟨?_, by decide, by decide, by decide⟩
  intro m p b m2 p2 b2 hm hp hb
  rw [hm, hp, hb]

/-- Witness for C2 at a concrete triple. -/
theorem C2_fingerprint_pure_and_distinct_witness :
    Hash.Generate "GET" "/a" [] = Hash.Generate "GET" "/a" [] :=
  C2_fingerprint_pure_and_distinct.1 "GET" "/a" [] "GET" "/a" [] rfl rfl rfl

/-- C3: in replay mode the backend proxy is never invoked — for every
store, request and would-be backend behaviour — and a request whose
fingerprint has no stored record is answered by `http.Error` with
status 404 and a plain-text message naming the fingerprint. -/
theorem C3_replay_no_backend_and_miss_404 (store : String → StoreEntry)
    (req : Request) (backendOps : List WOp) (saveOk : Bool) :
    (serveHTTP .replay store req backendOps saveOk).proxied = false
    ∧ (store (requestHashOf req) = .absent →
        (serveHTTP .replay store req backendOps saveOk).ops
          = httpError 404 ("no cached response found for request (hash: "
              ++ requestHashOf req ++ ")")) := by
  constructor
  · show (handleReplay (store (requestHashOf req)) (requestHashOf req)).proxied = false
    cases store (requestHashOf req) <;> rfl
  · intro habs
    show (handleReplay (store (requestHashOf req)) (requestHashOf req)).ops = _
    rw [habs]
    rfl

/-- Witness for C3: a concrete request against an empty store. -/
theorem C3_replay_no_backend_and_miss_404_witness :
    (serveHTTP .replay (fun _ => .absent) ⟨"GET", "/api/users", "", [], []⟩
        [] true).proxied = false
    ∧ (serveHTTP .replay (fun _ => .absent) ⟨"GET", "/api/users", "", [], []⟩
        [] true).ops
      = httpError 404 ("no cached response found for request (hash: "
          ++ requestHashOf ⟨"GET", "/api/users", "", [], []⟩ ++ ")") :=
  ⟨(C3_replay_no_backend_and_miss_404 (fun _ => .absent)
      ⟨"GET", "/api/users", "", [], []⟩ [] true).1,
   (C3_replay_no_backend_and_miss_404 (fun _ => .absent)
      ⟨"GET", "/api/users", "", [], []⟩ [] true).2 rfl⟩

/-- C4 counterexample: the claim says that for a stored record whose
status is not 204/304/1xx the stored body is written; but a record with
status 200 and the non-empty stored body `null` (four bytes) has
nothing written. -/
theorem C4_null_body_not_written_counterexample :
    statusAllowsBody 200 = true
    ∧ Storage.nullLit ≠ ([] : Bytes)
    ∧ writtenBody (handleReplay
        (.ok ⟨"GET", "/api/users", 200, [], Storage.nullLit⟩) "h").ops = []
    ∧ writtenBody (handleReplay
        (.ok ⟨"GET", "/api/users", 200, [], Storage.nullLit⟩) "h").ops
      ≠ Storage.nullLit := by
  refine ⟨by decide, by decide, by decide, by decide⟩

/-- C4 (amended): in replay mode a stored record with status 204, 304
or 1xx has no body written even when a non-empty body is stored; for
every other status the stored body is written, unless it is the
literal text `null`, which is suppressed like an empty body. -/
theorem C4_replay_status_gates_body (cached : Storage.CachedResponse)
    (hash : String) :
    (statusAllowsBody cached.statusCode = false →
      writtenBody (handleReplay (.ok cached) hash).ops = [])
    ∧ (statusAllowsBody cached.statusCode = true →
        cached.body ≠ Storage.nullLit →
        writtenBody (handleReplay (.ok cached) hash).ops = cached.body) := by
  constructor
  · intro hforbid
    rw [writtenBody_handleReplay_ok, if_neg]
    intro hcond
    rw [hforbid] at hcond
    exact absurd hcond.1 (by simp)
  · intro hallow hnn
    by_cases hemp : cached.body = []
    · rw [writtenBody_handleReplay_ok, if_neg, hemp]
      intro hcond
      rw [hemp] at hcond
      exact absurd hcond.2.1 (by simp)
    · rw [writtenBody_handleReplay_ok,
        if_pos ⟨hallow, List.length_pos.mpr hemp, hnn, hemp⟩]

/-- Witness for C4 (amended): a 204 record with a stored body writes
nothing; a 200 record with an ordinary body writes it. -/
theorem C4_replay_status_gates_body_witness :
    writtenBody (handleReplay (.ok ⟨"GET", "/a", 204, [], utf8 "zz"⟩) "h").ops = []
    ∧ writtenBody (handleReplay (.ok ⟨"GET", "/b", 200, [], utf8 "ok"⟩) "h").ops
      = utf8 "ok" :=
  ⟨(C4_replay_status_gates_body ⟨"GET", "/a", 204, [], utf8 "zz"⟩ "h").1 rfl,
   (C4_replay_status_gates_body ⟨"GET", "/b", 200, [], utf8 "ok"⟩ "h").2 rfl
     (by decide)⟩

/-- C5 counterexample: the claim says the record-mode forwarded request
carries none of the conditional headers and no revalidation-requesting
Cache-Control value. With a first If-None-Match value that is empty and
a real validator second, and a Cache-Control whose first value is
`private` with `no-cache` second, the stripper removes nothing: the
forwarded request still carries the validator and the `no-cache`
value. -/
theorem C5_first_value_only_counterexample :
    stripConditionalHeaders
        [("If-None-Match", ["", "W/\"etag1\""]),
         ("Cache-Control", ["private", "no-cache"])]
      = ([("If-None-Match", ["", "W/\"etag1\""]),
          ("Cache-Control", ["private", "no-cache"])], false)
    ∧ "W/\"etag1\"" ∈ hVals (stripConditionalHeaders
        [("If-None-Match", ["", "W/\"etag1\""]),
         ("Cache-Control", ["private", "no-cache"])]).1 "If-None-Match"
    ∧ "no-cache" ∈ hVals (stripConditionalHeaders
        [("If-None-Match", ["", "W/\"etag1\""]),
         ("Cache-Control", ["private", "no-cache"])]).1 "Cache-Control" := by
  refine ⟨by decide, by decide, by decide⟩

/-- C5 (amended): in record mode, for every inbound request, the request
forwarded to the backend has an empty first value (`Header.Get`) for
each of If-None-Match, If-Modified-Since, If-Range, If-Match and
If-Unmodified-Since, and its first Cache-Control value is never exactly
`no-cache` nor exactly `max-age=0`; only first values are inspected, so
validators or revalidation directives hidden in later values of a
multi-valued header can still reach the backend. -/
theorem C5_director_strips_first_values (req : Request) :
    hGet (directorRecord req).headers "If-None-Match" = ""
    ∧ hGet (directorRecord req).headers "If-Modified-Since" = ""
    ∧ hGet (directorRecord req).headers "If-Range" = ""
    ∧ hGet (directorRecord req).headers "If-Match" = ""
    ∧ hGet (directorRecord req).headers "If-Unmodified-Since" = ""
    ∧ hGet (directorRecord req).headers "Cache-Control" ≠ "no-cache"
    ∧ hGet (directorRecord req).headers "Cache-Control" ≠ "max-age=0" := by
  have hd : (directorRecord req).headers = (stripConditionalHeaders req.headers).1 := by
    simp only [directorRecord]
  have hdef : stripConditionalHeaders req.headers
      = stripCC (condNames.foldl stripStep (req.headers, false)) := by
    rw [stripConditionalHeaders]
  have hnm : ∀ n ∈ condNames, n ≠ "Cache-Control" := by decide
  have hnames : ∀ n ∈ condNames,
      hGet (stripConditionalHeaders req.headers).1 n = "" := by
    intro n hn
    rw [hdef, stripCC_get_preserved _ _ (hnm n hn)]
    exact foldl_stripStep_mem condNames (req.headers, false) n hn
  have hcc := stripCC_cc (condNames.foldl stripStep (req.headers, false))
  rw [← hdef] at hcc
  rw [hd]
  exact ⟨hnames _ (by decide), hnames _ (by decide), hnames _ (by decide),
    hnames _ (by decide), hnames _ (by decide), hcc.1, hcc.2⟩

/-- C6: in record mode the client-visible response — the writer
operation sequence, hence also the response headers and body — is
identical whether the store's save succeeds or fails, and on failure
nothing is saved (the error is only logged). -/
theorem C6_save_failure_invisible (store : String → StoreEntry) (req : Request)
    (backendOps : List WOp) :
    (serveHTTP .record store req backendOps true).ops
        = (serveHTTP .record store req backendOps false).ops
    ∧ respHeaders (serveHTTP .record store req backendOps true).ops
        = respHeaders (serveHTTP .record store req backendOps false).ops
    ∧ writtenBody (serveHTTP .record store req backendOps true).ops
        = writtenBody (serveHTTP .record store req backendOps false).ops
    ∧ (serveHTTP .record store req backendOps false).saved = none :=
  ⟨rfl, rfl, rfl, rfl⟩

/-- C7: on a replay hit, the stored Content-Length header is dropped
and never set on the response, while every other stored header with a
non-empty value list is reconstructed exactly, first value set and the
remaining values appended in order. -/
theorem C7_replay_header_reconstruction (cached : Storage.CachedResponse)
    (hash : String) (hnd : (cached.headers.map Prod.fst).Nodup) :
    hVals (respHeaders (handleReplay (.ok cached) hash).ops) "Content-Length" = []
    ∧ ∀ k vs, (k, vs) ∈ cached.headers → k ≠ "Content-Length" → vs ≠ [] →
        hVals (respHeaders (handleReplay (.ok cached) hash).ops) k = vs := by
  constructor
  · rw [respHeaders_replay, foldl_applyEntry_CL]
    rfl
  · intro k vs hmem hk hvs
    rw [respHeaders_replay]
    exact foldl_applyEntry_mem _ _ _ _ hnd hmem hk hvs

/-- Witness for C7: a concrete record with a stored Content-Length and
a multi-valued header. -/
theorem C7_replay_header_reconstruction_witness :
    hVals (respHeaders (handleReplay (.ok ⟨"GET", "/w", 200,
        [("Content-Length", ["42"]), ("X-Multi", ["1", "2"])], []⟩) "h").ops)
      "Content-Length" = []
    ∧ hVals (respHeaders (handleReplay (.ok ⟨"GET", "/w", 200,
        [("Content-Length", ["42"]), ("X-Multi", ["1", "2"])], []⟩) "h").ops)
      "X-Multi" = ["1", "2"] :=
  ⟨(C7_replay_header_reconstruction ⟨"GET", "/w", 200,
      [("Content-Length", ["42"]), ("X-Multi", ["1", "2"])], []⟩ "h"
      (by decide)).1,
   (C7_replay_header_reconstruction ⟨"GET", "/w", 200,
      [("Content-Length", ["42"]), ("X-Multi", ["1", "2"])], []⟩ "h"
      (by decide)).2 "X-Multi" ["1", "2"] (by decide) (by decide) (by decide)⟩

/-- C8: a record-mode capture in which no explicit status write occurs
has status code 200 — the capturer is constructed with `http.StatusOK`
and body writes never change it. A status write after a body write is
excluded by the HTTP writer contract (net/http treats it as a
superfluous-WriteHeader programming error), so the claim's "no explicit
status write before the first body write" is formalized as no status
write at all. -/
theorem C8_capture_default_status_200 (ops : List WOp)
    (hno : ∀ code, WOp.writeHeader code ∉ ops) :
    (runCapturer ops).statusCode = 200 :=
  (capFold_status ops capInit hno).trans rfl

/-- Witness for C8: a backend response that only sets a header and
writes a body. -/
theorem C8_capture_default_status_200_witness :
    (runCapturer [WOp.setHeader "Content-Type" "application/json",
        WOp.write (utf8 "{}")]).statusCode = 200 :=
  C8_capture_default_status_200 _ (by intro code h; simp at h)

/-- C9: the fingerprint `ServeHTTP` computes depends only on the
method, the parsed URL path and the body bytes — two requests that
agree on those three but differ in the query string (or anything else,
such as headers) hash identically and therefore address the same
stored record. -/
theorem C9_query_string_ignored (r1 r2 : Request) (hm : r1.method = r2.method)
    (hp : r1.urlPath = r2.urlPath) (hb : r1.body = r2.body) :
    requestHashOf r1 = requestHashOf r2 := by
  unfold requestHashOf
  rw [hm, hp, hb]

/-- Witness for C9: same method, path and body, different query
strings and headers. -/
theorem C9_query_string_ignored_witness :
    requestHashOf ⟨"GET", "/api/users", "page=1", [], []⟩
      = requestHashOf ⟨"GET", "/api/users", "page=2", [("Accept", ["*/*"])], []⟩ :=
  C9_query_string_ignored ⟨"GET", "/api/users", "page=1", [], []⟩
    ⟨"GET", "/api/users", "page=2", [("Accept", ["*/*"])], []⟩ rfl rfl rfl

/-- C10: on a replay hit, a loaded body that is empty or exactly the
four characters of the text `null` is never written, whatever the
status code. -/
theorem C10_empty_or_null_body_suppressed (cached : Storage.CachedResponse)
    (hash : String) (hb : cached.body = [] ∨ cached.body = Storage.nullLit) :
    writtenBody (handleReplay (.ok cached) hash).ops = [] := by
  rw [writtenBody_handleReplay_ok, if_neg]
  intro hcond
  rcases hb with hb | hb
  · rw [hb] at hcond
    exact absurd hcond.2.1 (by simp)
  · exact absurd hb hcond.2.2.1

/-- Witness for C10: a 200 record whose stored body is the literal
text `null`. -/
theorem C10_empty_or_null_body_suppressed_witness :
    writtenBody (handleReplay
      (.ok ⟨"GET", "/n", 200, [], Storage.nullLit⟩) "h").ops = [] :=
  C10_empty_or_null_body_suppressed ⟨"GET", "/n", 200, [], Storage.nullLit⟩ "h"
    (Or.inr rfl)

/-- Witness for C5 (amended): a concrete request whose conditional
header and revalidating Cache-Control (as single first values) are
stripped. -/
theorem C5_director_strips_first_values_witness :
    hGet (directorRecord ⟨"GET", "/a", "",
        [("If-None-Match", ["\"etag1\""]), ("Cache-Control", ["no-cache"])],
        []⟩).headers "If-None-Match" = ""
    ∧ hGet (directorRecord ⟨"GET", "/a", "",
        [("If-None-Match", ["\"etag1\""]), ("Cache-Control", ["no-cache"])],
        []⟩).headers "Cache-Control" ≠ "no-cache" :=
  ⟨(C5_director_strips_first_values ⟨"GET", "/a", "",
      [("If-None-Match", ["\"etag1\""]), ("Cache-Control", ["no-cache"])], []⟩).1,
   (C5_director_strips_first_values ⟨"GET", "/a", "",
      [("If-None-Match", ["\"etag1\""]), ("Cache-Control", ["no-cache"])],
      []⟩).2.2.2.2.2.1⟩
